import Mathlib

/-!
Shallow embedding of the Spawn game-installer core (src/src/discovery.rs,
src/src/installation.rs, src/src/utils.rs, src/src/main.rs) and proofs about
its executable/icon discovery, archive-name derivation, de-nesting, dry-run
behaviour and fuzzy-path selection.

Modelling conventions:
- A directory tree is an `FSTree`; file contents are `Option (List Nat)`
  (bytes), `none` modelling an unreadable file (`File::open` failure).
- Paths are lists of components relative to the walk root; the root's own
  path is carried separately as a display string `rootStr` (no trailing
  slash) and a component count `rootCount`, because the Rust code inspects
  the full path string (`to_string_lossy`) and the full component count.
- Rust string operations are modelled on character lists (`ends_with` as
  suffix, `contains` as infix); for valid UTF-8 these agree with Rust's
  byte-level definitions because UTF-8 is self-synchronizing.
- `Vec::sort_by_key` (a stable sort) is modelled by a stable insertion
  sort over the same key, with the key order made explicit.
- Fallible operations return `Except`/`Option`; interactive input lines and
  external-process outcomes are explicit parameters.
-/

namespace Spawn

/-- Bytes of a file, as read by `std::fs`. -/
abbrev Bytes := List Nat

/-- A directory tree: named files with (possibly unreadable) contents, and
named directories with an ordered child list (`read_dir` order). -/
inductive FSTree where
  | file (name : String) (content : Option Bytes)
  | dir (name : String) (children : List FSTree)

/-- A file met during the walk: its path components relative to the walk
root (ending in its name), its file name, and its contents. -/
structure FileEntry where
  relPath : List String
  name : String
  content : Option Bytes
deriving Repr, DecidableEq

/-- Whether `pat` occurs as a contiguous sublist of `l`. -/
def isInfixList (pat : List Char) : List Char → Bool
  | [] => pat.isEmpty
  | c :: rest => pat.isPrefixOf (c :: rest) || isInfixList pat rest

/-- Rust `str::contains` (substring test), on character lists. -/
def containsStr (s pat : String) : Bool :=
  isInfixList pat.toList s.toList

/-- Rust `str::ends_with`, on character lists. -/
def endsWithStr (s pat : String) : Bool :=
  pat.toList.isSuffixOf s.toList

/-- Rust `str::contains(char)`, on character lists. -/
def strContainsChar (s : String) (c : Char) : Bool :=
  s.toList.contains c

/-- Rust `str::to_lowercase`, restricted to ASCII case mapping. -/
def lowerStr (s : String) : String :=
  String.mk (s.toList.map Char.toLower)

/-- Rust `str::trim`, on character lists (whitespace at both ends). -/
def trimChars (s : String) : String :=
  String.mk (((s.toList.dropWhile Char.isWhitespace).reverse.dropWhile
    Char.isWhitespace).reverse)

/-- The ELF magic number: the four bytes 0x7F 'E' 'L' 'F'. -/
def ELF_MAGIC : Bytes := [0x7F, 0x45, 0x4C, 0x46]

/-- Model of `is_elf_binary` (src/src/discovery.rs lines 63-74): open the
file (`none` = open failure, yields false), `read_exact` 4 bytes (fewer
than 4 available yields false), and compare with the ELF magic. -/
def is_elf_binary : Option Bytes → Bool
  | none => false
  | some bytes =>
      if bytes.length < 4 then false
      else decide (bytes.take 4 = ELF_MAGIC)

/-- Model of the `WalkDir::new(root).max_depth(3)` file enumeration used by
both discoverers: depth-first, pre-order, in `read_dir` order, yielding
files at depth 1 up to depth 3 below the root (the root itself and
directories are not files and are skipped by `path.is_file()`). The fuel
starts at 2: each unit allows descending one more level past depth 1. -/
def walkTrees : Nat → List String → List FSTree → List FileEntry
  | 0, pfx, ts =>
      ts.flatMap (fun t =>
        match t with
        | FSTree.file n c => [⟨pfx ++ [n], n, c⟩]
        | FSTree.dir _ _ => [])
  | f + 1, pfx, ts =>
      ts.flatMap (fun t =>
        match t with
        | FSTree.file n c => [⟨pfx ++ [n], n, c⟩]
        | FSTree.dir n cs => walkTrees f (pfx ++ [n]) cs)

/-- All files visited by the bounded walk below a root with child list
`children`. -/
def walkFiles (children : List FSTree) : List FileEntry :=
  walkTrees 2 [] children

/-- Display string of a walked path: the root's own path string followed by
one slash-separated component per level, as `Path::to_string_lossy` shows
it. -/
def pathString (rootStr : String) (relPath : List String) : String :=
  relPath.foldl (fun acc comp => acc ++ "/" ++ comp) rootStr

/-- Tier 1 launcher file names (src/src/discovery.rs line 16): the three
conventional scripts, or anything ending in `.AppImage`. -/
def isLauncherName (name : String) : Bool :=
  name == "start.sh" || name == "run.sh" || name == "launcher.sh" ||
    endsWithStr name ".AppImage"

/-- Tier 1 test of the discovery.rs revision: a direct child of the root
(`path.parent() == Some(game_dir)`) with a launcher name. -/
def isTier1 (e : FileEntry) : Bool :=
  e.relPath.length == 1 && isLauncherName e.name

/-- Tier 1 test of the main.rs revision (src/src/main.rs line 322): same,
but without the `.AppImage` alternative. -/
def isTier1Main (e : FileEntry) : Bool :=
  e.relPath.length == 1 &&
    (e.name == "start.sh" || e.name == "run.sh" || e.name == "launcher.sh")

/-- Tier 2 candidate test (src/src/discovery.rs lines 21-32): a name ending
in `.x86_64` or `.x86` that sniffs as ELF; otherwise a name with no dot,
whose full path string avoids the substrings `/lib/` and `/docs/`, that
sniffs as ELF. -/
def isTier2 (rootStr : String) (e : FileEntry) : Bool :=
  if endsWithStr e.name ".x86_64" || endsWithStr e.name ".x86" then
    is_elf_binary e.content
  else if !(strContainsChar e.name '.') then
    (!(containsStr (pathString rootStr e.relPath) "/lib/") &&
     !(containsStr (pathString rootStr e.relPath) "/docs/")) &&
    is_elf_binary e.content
  else false

/-- Strict lexicographic order on `Nat` pair sort keys. -/
def natPairLT (a b : Nat × Nat) : Bool :=
  decide (a.1 < b.1) || (decide (a.1 = b.1) && decide (a.2 < b.2))

/-- Strict lexicographic order on `Int × Nat` sort keys. -/
def intPairLT (a b : Int × Nat) : Bool :=
  decide (a.1 < b.1) || (decide (a.1 = b.1) && decide (a.2 < b.2))

/-- Insert `a` after every element strictly below it: the insertion step of
a stable sort. -/
def insertSorted (lt : α → α → Bool) (a : α) : List α → List α
  | [] => [a]
  | b :: l => if lt b a then b :: insertSorted lt a l else a :: b :: l

/-- Stable sort by a strict comparison, modelling `Vec::sort_by_key`
(which Rust documents as stable). -/
def stableSort (lt : α → α → Bool) : List α → List α
  | [] => []
  | a :: l => insertSorted lt a (stableSort lt l)

/-- Sort key of an executable candidate (src/src/discovery.rs line 36):
full-path component count (root components plus relative depth), then file
name length in bytes. -/
def sortKey (rootCount : Nat) (e : FileEntry) : Nat × Nat :=
  (rootCount + e.relPath.length, e.name.utf8ByteSize)

/-- The Tier 2 candidate list the walk collects when no Tier 1 file stops
it. -/
def tier2Candidates (rootStr : String) (children : List FSTree) :
    List FileEntry :=
  (walkFiles children).filter (isTier2 rootStr)

/-- Model of `discover_executable` (src/src/discovery.rs lines 6-39): the
walk returns the first Tier 1 file immediately; otherwise the Tier 2
candidates are stably sorted by `sortKey` and the first is returned.
`none` models the `No executable found` error. -/
def discover_executable (rootStr : String) (rootCount : Nat)
    (children : List FSTree) : Option (List String) :=
  match (walkFiles children).find? isTier1 with
  | some e => some e.relPath
  | none =>
      ((stableSort
          (fun a b => natPairLT (sortKey rootCount a) (sortKey rootCount b))
          (tier2Candidates rootStr children)).head?).map FileEntry.relPath

/-- Model of the duplicated `discover_executable` in src/src/main.rs lines
312-348: identical except that Tier 1 omits `.AppImage`. -/
def discover_executable_main (rootStr : String) (rootCount : Nat)
    (children : List FSTree) : Option (List String) :=
  match (walkFiles children).find? isTier1Main with
  | some e => some e.relPath
  | none =>
      ((stableSort
          (fun a b => natPairLT (sortKey rootCount a) (sortKey rootCount b))
          (tier2Candidates rootStr children)).head?).map FileEntry.relPath

/-- Icon candidate test (src/src/discovery.rs line 48): lowercased name
ends in `.png`, `.svg` or `.ico`. -/
def isIconCandidate (e : FileEntry) : Bool :=
  endsWithStr (lowerStr e.name) ".png" ||
  endsWithStr (lowerStr e.name) ".svg" ||
  endsWithStr (lowerStr e.name) ".ico"

/-- Icon score (src/src/discovery.rs lines 49-53): 10 when the lowercased
name contains `icon` or `logo`, else 1. -/
def iconScore (e : FileEntry) : Int :=
  if containsStr (lowerStr e.name) "icon" ||
     containsStr (lowerStr e.name) "logo" then 10 else 1

/-- Icon sort key (src/src/discovery.rs line 59): negated score, then
full-path component count. -/
def iconKey (rootCount : Nat) (e : FileEntry) : Int × Nat :=
  (-(iconScore e), rootCount + e.relPath.length)

/-- All icon candidates collected by the walk. -/
def iconCandidates (children : List FSTree) : List FileEntry :=
  (walkFiles children).filter isIconCandidate

/-- Model of `discover_icon` (src/src/discovery.rs lines 41-61): collect
candidates, stably sort by `iconKey`, return the first if any. -/
def discover_icon (rootCount : Nat) (children : List FSTree) :
    Option (List String) :=
  ((stableSort
      (fun a b => intPairLT (iconKey rootCount a) (iconKey rootCount b))
      (iconCandidates children)).head?).map FileEntry.relPath

/-- Model of `flatten_if_needed` (src/src/installation.rs lines 129-142):
if the directory's entry list is exactly one entry and that entry is a
directory, the result is that inner directory; otherwise the directory
itself. Directories in the model are always readable (the `read_dir`
failure branch also returns the directory unchanged). -/
def flatten_if_needed (dir : List String) (children : List FSTree) :
    List String :=
  match children with
  | [FSTree.dir n _] => dir ++ [n]
  | _ => dir

/-- Model of Rust `Path::file_stem` on a file name: the portion before the
last `.`, except that a name whose only `.` is its leading character is
returned whole (hidden-file rule). -/
def fileStem (name : String) : String :=
  match name.toList.reverse.findIdx? (fun c => c == '.') with
  | none => name
  | some j =>
      let i := name.toList.length - 1 - j
      if i = 0 then name else String.mk (name.toList.take i)

/-- Model of the target directory-name derivation of `extract_archive`
(src/src/installation.rs lines 10-17): the archive name's stem; if that
stem still ends in `.tar`, the stem of the stem. -/
def targetDirName (archiveName : String) : String :=
  let stem := fileStem archiveName
  if endsWithStr stem ".tar" then fileStem stem else stem

/-- Modelled from the spec: the claimed derivation, strip the outermost
extension from the archive's file name and, if the remaining stem still
ends in `.tar`, strip that too — reading the second step literally as
removing the four-character suffix `.tar`. Stated only for comparison with
`targetDirName`. -/
def specTargetDirName (archiveName : String) : String :=
  let stem := fileStem archiveName
  if endsWithStr stem ".tar" then
    String.mk (stem.toList.take (stem.toList.length - 4))
  else stem

/-- Errors of the interactive disambiguation step of `resolve_fuzzy_path`
(src/src/utils.rs lines 63-86), classified by the spec's taxonomy:
`cancelled` is the `Operation cancelled by user` failure on empty input;
`invalidSelection` carries the exact message of the two malformed-entry
failures (`Invalid selection` for a parse failure, `Selection out of
range` for an index of 0 or above the match count). -/
inductive FuzzyError where
  | cancelled
  | invalidSelection (msg : String)
deriving Repr, DecidableEq

/-- Largest value of Rust `usize` on a 64-bit host. -/
def USIZE_MAX : Nat := 2 ^ 64 - 1

/-- Decimal digits to a number, or `none` when empty or non-digit. -/
def parseDigits (cs : List Char) : Option Nat :=
  if cs.isEmpty then none
  else if cs.all Char.isDigit then
    some (cs.foldl (fun acc c => acc * 10 + (c.toNat - 48)) 0)
  else none

/-- Model of Rust `str::parse::<usize>`: an optional leading `+`, then one
or more ASCII digits, with the value bounded by `usize::MAX`. -/
def parseUsize (s : String) : Option Nat :=
  let digits :=
    match s.toList with
    | '+' :: rest => rest
    | cs => cs
  match parseDigits digits with
  | some v => if v ≤ USIZE_MAX then some v else none
  | none => none

/-- Model of the multiple-match branch of `resolve_fuzzy_path`
(src/src/utils.rs lines 63-86): trim the operator's input line; empty
cancels; a parse failure or an index of 0 or above the match count is an
invalid selection; a valid 1-based index returns that match. -/
def selectFromMatches (ms : List String) (line : String) :
    Except FuzzyError String :=
  if trimChars line = "" then Except.error FuzzyError.cancelled
  else
    match parseUsize (trimChars line) with
    | none => Except.error (FuzzyError.invalidSelection "Invalid selection")
    | some index =>
        if index = 0 ∨ ms.length < index then
          Except.error (FuzzyError.invalidSelection "Selection out of range")
        else Except.ok (ms.getD (index - 1) "")

/-- Filesystem mutations the Archive Extractor and AppImage installer can
perform; the external unzip/tar process writing into the target directory
is the `extractInto` mutation. -/
inductive FsMutation where
  | removeDirAll (path : List String)
  | createDirAll (path : List String)
  | extractInto (archive : String) (path : List String)
  | copyFile (src : String) (dest : List String)
deriving Repr, DecidableEq

/-- Errors of the installation component. -/
inductive InstallError where
  | invalidFileName
  | spawnFailed (msg : String)
  | extractionFailed (code : Option Int) (hint : String)
deriving Repr, DecidableEq

/-- Remediation hint chosen on a non-zero extraction exit status
(src/src/installation.rs lines 79-85). -/
def extractionHint (archivePathStr : String) : String :=
  if endsWithStr archivePathStr ".xz" then
    "Hint: ensure xz-utils or xz is installed"
  else if endsWithStr archivePathStr ".zip" then
    "Hint: ensure unzip is installed and the archive is valid"
  else "Hint: ensure tar is installed and the archive is valid"

/-- Environment of one `extract_archive` call: the archive's file name and
full path string, the install parent, whether the target directory already
exists and what it contains, the operator's overwrite reply, whether the
external command could be spawned and its exit status, and the contents
the target holds after a successful extraction. -/
structure ExtractEnv where
  archiveName : String
  archivePathStr : String
  installDir : List String
  targetExists : Bool
  existingChildren : List FSTree
  confirmLine : String
  spawnOk : Bool
  exitSuccess : Bool
  exitCode : Option Int
  extractedChildren : List FSTree

/-- Model of `extract_archive` (src/src/installation.rs lines 9-92),
returning the result together with the list of filesystem mutations
performed. An empty archive name models `file_stem` returning `None`;
declining the overwrite prompt returns the flattened existing directory
untouched; removal and creation are recorded only when not a dry run; a
dry run returns the target directory before any extraction; otherwise the
external command runs and a successful exit yields the flattened freshly
extracted target. Failures of `remove_dir_all`, `create_dir_all` and of
reading the prompt reply are not injected. -/
def extract_archive (env : ExtractEnv) (dry_run : Bool) :
    Except InstallError (List String) × List FsMutation :=
  if env.archiveName = "" then
    (Except.error InstallError.invalidFileName, [])
  else
    let target := env.installDir ++ [targetDirName env.archiveName]
    if env.targetExists && !(lowerStr (trimChars env.confirmLine) == "y") then
      (Except.ok (flatten_if_needed target env.existingChildren), [])
    else
      let removeMuts :=
        if env.targetExists && !dry_run then [FsMutation.removeDirAll target]
        else []
      let muts := removeMuts ++
        (if !dry_run then [FsMutation.createDirAll target] else [])
      if dry_run then (Except.ok target, muts)
      else if !env.spawnOk then
        (Except.error
          (InstallError.spawnFailed "Failed to execute extraction command"),
         muts)
      else
        let muts := muts ++ [FsMutation.extractInto env.archiveName target]
        if env.exitSuccess then
          (Except.ok (flatten_if_needed target env.extractedChildren), muts)
        else
          (Except.error
            (InstallError.extractionFailed env.exitCode
              (extractionHint env.archivePathStr)),
           muts)

/-- Environment of one `install_appimage` call. -/
structure AppImageEnv where
  fileName : String
  installDir : List String
  targetExists : Bool
  confirmLine : String

/-- Model of `install_appimage` (src/src/installation.rs lines 94-127):
the target is the install parent joined with the AppImage's stem;
declining an overwrite returns it untouched; a dry run performs no
mutation and returns the target; otherwise the existing target is
removed (when accepted), the directory created and the AppImage copied
in. -/
def install_appimage (env : AppImageEnv) (dry_run : Bool) :
    Except InstallError (List String) × List FsMutation :=
  if env.fileName = "" then
    (Except.error InstallError.invalidFileName, [])
  else
    let target := env.installDir ++ [fileStem env.fileName]
    if env.targetExists && !(lowerStr (trimChars env.confirmLine) == "y") then
      (Except.ok target, [])
    else
      let removeMuts :=
        if env.targetExists && !dry_run then [FsMutation.removeDirAll target]
        else []
      if dry_run then (Except.ok target, removeMuts)
      else
        (Except.ok target,
         removeMuts ++
           [FsMutation.createDirAll target,
            FsMutation.copyFile env.fileName (target ++ [env.fileName])])

/-- Ascending lexicographic comparison of executable sort keys, used to
state selection minimality. -/
def keyLEProp (a b : Nat × Nat) : Prop :=
  a.1 < b.1 ∨ (a.1 = b.1 ∧ a.2 ≤ b.2)

/-- Ascending lexicographic comparison of icon sort keys (which carry the
negated score, so this means: higher score, then shallower depth). -/
def intKeyLEProp (a b : Int × Nat) : Prop :=
  a.1 < b.1 ∨ (a.1 = b.1 ∧ a.2 ≤ b.2)

/-- File content carrying the ELF magic, for concrete examples. -/
def elfContent : Option Bytes := some ELF_MAGIC

/-- Example tree of the C1 claim: `./game.x86_64` (ELF, depth 1) and
`./bin/helper.x86_64` (ELF, depth 2). -/
def exC1 : List FSTree :=
  [FSTree.file "game.x86_64" elfContent,
   FSTree.dir "bin" [FSTree.file "helper.x86_64" elfContent]]

/-- Example tree of the C2 claim: `./run.sh` next to a deeper valid ELF
candidate. -/
def exC2 : List FSTree :=
  [FSTree.file "run.sh" (some []),
   FSTree.dir "bin" [FSTree.file "game.x86_64" elfContent]]

/-- Example tree of the C7 claim: `logo.png` and `splash.png` at equal
depth. -/
def exC7 : List FSTree :=
  [FSTree.file "logo.png" (some []), FSTree.file "splash.png" (some [])]

/-- Example tree for C9: a single extensionless ELF file directly below
the root. -/
def exC9 : List FSTree := [FSTree.file "game" elfContent]

/-- Example tree for C10: an `.AppImage` directly below the root. -/
def exC10 : List FSTree := [FSTree.file "Game.AppImage" (some [])]

/-- Example tree for the C10 witness: a Tier 1 script and a deeper ELF,
no `.AppImage` anywhere. -/
def exC10w : List FSTree :=
  [FSTree.file "start.sh" (some []),
   FSTree.dir "bin" [FSTree.file "game" elfContent]]

/-- Example extraction environment: `foo.zip` into `install`, target not
yet present, extraction succeeding and producing a single nested wrapper
directory. -/
def envC5 : ExtractEnv :=
  ⟨"foo.zip", "/dl/foo.zip", ["install"], false, [], "", true, true,
   some 0, [FSTree.dir "wrapper" []]⟩

/-- Example AppImage environment. -/
def aenvC5 : AppImageEnv := ⟨"Game.AppImage", ["install"], false, ""⟩

/-! Helper lemmas about the stable sort and the key orders. -/

theorem perm_insertSorted (lt : α → α → Bool) (a : α) :
    ∀ l : List α, List.Perm (insertSorted lt a l) (a :: l) := by
  intro l
  induction l with
  | nil => exact List.Perm.refl [a]
  | cons b t ih =>
    cases h : lt b a with
    | true =>
      simp only [insertSorted, h, if_true]
      exact (ih.cons b).trans (List.Perm.swap a b t)
    | false =>
      simp only [insertSorted, h, Bool.false_eq_true, if_false]
      exact List.Perm.refl _

theorem perm_stableSort (lt : α → α → Bool) :
    ∀ l : List α, List.Perm (stableSort lt l) l := by
  intro l
  induction l with
  | nil => exact List.Perm.refl []
  | cons a t ih =>
    exact (perm_insertSorted lt a (stableSort lt t)).trans (ih.cons a)

theorem pairwise_insertSorted {lt : α → α → Bool}
    (hmono : ∀ x y z, lt y x = false → lt z y = false → lt z x = false)
    (hasymm : ∀ x y, lt x y = true → lt y x = false) (a : α) :
    ∀ l : List α, l.Pairwise (fun x y => lt y x = false) →
      (insertSorted lt a l).Pairwise (fun x y => lt y x = false) := by
  intro l
  induction l with
  | nil => intro _; simp [insertSorted]
  | cons b t ih =>
    intro h
    rw [List.pairwise_cons] at h
    obtain ⟨hb, ht⟩ := h
    cases hlt : lt b a with
    | true =>
      simp only [insertSorted, hlt, if_true]
      rw [List.pairwise_cons]
      refine ⟨?_, ih ht⟩
      intro y hy
      rcases List.mem_cons.mp ((perm_insertSorted lt a t).mem_iff.mp hy) with
        rfl | hyt
      · exact hasymm b y hlt
      · exact hb y hyt
    | false =>
      simp only [insertSorted, hlt, Bool.false_eq_true, if_false]
      rw [List.pairwise_cons]
      refine ⟨?_, List.pairwise_cons.mpr ⟨hb, ht⟩⟩
      intro y hy
      rcases List.mem_cons.mp hy with rfl | hyt
      · exact hlt
      · exact hmono a b y hlt (hb y hyt)

theorem pairwise_stableSort {lt : α → α → Bool}
    (hmono : ∀ x y z, lt y x = false → lt z y = false → lt z x = false)
    (hasymm : ∀ x y, lt x y = true → lt y x = false) :
    ∀ l : List α, (stableSort lt l).Pairwise (fun x y => lt y x = false) := by
  intro l
  induction l with
  | nil => simp [stableSort]
  | cons a t ih => exact pairwise_insertSorted hmono hasymm a _ ih

theorem head_min_of_pairwise {R : α → α → Prop} {l : List α} {e : α}
    (hp : l.Pairwise R) (hh : l.head? = some e) :
    ∀ d ∈ l, d = e ∨ R e d := by
  intro d hd
  cases l with
  | nil => simp at hh
  | cons a t =>
    simp only [List.head?_cons, Option.some.injEq] at hh
    subst hh
    rw [List.pairwise_cons] at hp
    rcases List.mem_cons.mp hd with h | h
    · exact Or.inl h
    · exact Or.inr (hp.1 d h)

theorem findCongr {p q : α → Bool} :
    ∀ {l : List α}, (∀ a ∈ l, p a = q a) → l.find? p = l.find? q := by
  intro l
  induction l with
  | nil => intro _; rfl
  | cons a t ih =>
    intro h
    have ha := h a (List.mem_cons_self a t)
    rw [List.find?_cons, List.find?_cons, ← ha]
    cases hpa : p a
    · exact ih (fun b hb => h b (List.mem_cons_of_mem a hb))
    · rfl

theorem natPairLT_false_iff (a b : Nat × Nat) :
    natPairLT a b = false ↔ keyLEProp b a := by
  simp only [natPairLT, keyLEProp, Bool.or_eq_false_iff,
    Bool.and_eq_false_iff, decide_eq_false_iff_not]
  omega

theorem natPairLT_mono (x y z : Nat × Nat) (h1 : natPairLT y x = false)
    (h2 : natPairLT z y = false) : natPairLT z x = false := by
  rw [natPairLT_false_iff] at h1 h2 ⊢
  simp only [keyLEProp] at *
  omega

theorem natPairLT_asymm (x y : Nat × Nat) (h : natPairLT x y = true) :
    natPairLT y x = false := by
  rw [natPairLT_false_iff]
  simp only [natPairLT, Bool.or_eq_true, Bool.and_eq_true,
    decide_eq_true_eq] at h
  simp only [keyLEProp]
  omega

theorem intPairLT_false_iff (a b : Int × Nat) :
    intPairLT a b = false ↔ intKeyLEProp b a := by
  simp only [intPairLT, intKeyLEProp, Bool.or_eq_false_iff,
    Bool.and_eq_false_iff, decide_eq_false_iff_not]
  omega

theorem intPairLT_mono (x y z : Int × Nat) (h1 : intPairLT y x = false)
    (h2 : intPairLT z y = false) : intPairLT z x = false := by
  rw [intPairLT_false_iff] at h1 h2 ⊢
  simp only [intKeyLEProp] at *
  omega

theorem intPairLT_asymm (x y : Int × Nat) (h : intPairLT x y = true) :
    intPairLT y x = false := by
  rw [intPairLT_false_iff]
  simp only [intPairLT, Bool.or_eq_true, Bool.and_eq_true,
    decide_eq_true_eq] at h
  simp only [intKeyLEProp]
  omega

/-! Claim theorems. -/

/-- C1: whenever executable discovery finds no Tier 1 match and collects a
non-empty Tier 2 candidate list, the path it returns belongs to a
candidate whose sort key — (full-path component count, file-name byte
length), ascending — is minimal among all collected candidates, i.e. the
first candidate after the stable ascending sort; in particular, on a tree
with `./game.x86_64` (ELF, depth 1) and `./bin/helper.x86_64` (ELF,
depth 2), discovery returns `./game.x86_64`. -/
theorem C1_tier2_selection :
    (∀ (rootStr : String) (rootCount : Nat) (children : List FSTree),
      (walkFiles children).find? isTier1 = none →
      tier2Candidates rootStr children ≠ [] →
      ∃ e : FileEntry,
        discover_executable rootStr rootCount children = some e.relPath ∧
        e ∈ tier2Candidates rootStr children ∧
        ∀ d ∈ tier2Candidates rootStr children,
          keyLEProp (sortKey rootCount e) (sortKey rootCount d)) ∧
    discover_executable "/opt/games" 2 exC1 = some ["game.x86_64"] := by
  constructor
  · intro rootStr rootCount children h1 h2
    unfold discover_executable
    rw [h1]
    set lt := fun a b : FileEntry =>
      natPairLT (sortKey rootCount a) (sortKey rootCount b) with hlt
    set cands := tier2Candidates rootStr children with hcands
    have hperm := perm_stableSort lt cands
    have hne : stableSort lt cands ≠ [] := by
      intro hnil
      apply h2
      have hlen := hperm.length_eq
      rw [hnil] at hlen
      exact List.length_eq_zero.mp hlen.symm
    obtain ⟨e, t, het⟩ : ∃ e t, stableSort lt cands = e :: t := by
      cases hst : stableSort lt cands with
      | nil => exact absurd hst hne
      | cons e t => exact ⟨e, t, rfl⟩
    have hmem : e ∈ cands := hperm.mem_iff.mp (het ▸ List.mem_cons_self e t)
    have hpw := @pairwise_stableSort FileEntry lt
      (fun x y z hxy hyz =>
        natPairLT_mono (sortKey rootCount x) (sortKey rootCount y)
          (sortKey rootCount z) hxy hyz)
      (fun x y hxy =>
        natPairLT_asymm (sortKey rootCount x) (sortKey rootCount y) hxy)
      cands
    have hmin := head_min_of_pairwise hpw (by rw [het]; rfl)
    refine ⟨e, ?_, hmem, ?_⟩
    · rw [het]
      rfl
    · intro d hd
      rcases hmin d (hperm.mem_iff.mpr hd) with rfl | hle
      · exact Or.inr ⟨rfl, Nat.le_refl _⟩
      · exact (natPairLT_false_iff _ _).mp hle
  · decide

/-- Witness for C1: the hypotheses hold on the claim's own example tree
and the theorem yields the selected minimal candidate there. -/
theorem C1_tier2_selection_witness :
    (walkFiles exC1).find? isTier1 = none ∧
    tier2Candidates "/opt/games" exC1 ≠ [] ∧
    ∃ e : FileEntry,
      discover_executable "/opt/games" 2 exC1 = some e.relPath ∧
      e ∈ tier2Candidates "/opt/games" exC1 ∧
      ∀ d ∈ tier2Candidates "/opt/games" exC1,
        keyLEProp (sortKey 2 e) (sortKey 2 d) :=
  ⟨by decide, by decide,
   C1_tier2_selection.1 "/opt/games" 2 exC1 (by decide) (by decide)⟩

/-- C2: if any walked file is a Tier 1 match — a direct child of the root
named exactly start.sh, run.sh or launcher.sh, or ending in `.AppImage` —
then discovery returns a Tier 1 direct child (so never a scored Tier 2
candidate, no matter how many deeper valid ELF candidates exist); in
particular, with `./run.sh` next to a deeper ELF candidate it returns
`./run.sh`. -/
theorem C2_tier1_short_circuit :
    (∀ (rootStr : String) (rootCount : Nat) (children : List FSTree),
      (∃ e ∈ walkFiles children, isTier1 e = true) →
      ∃ e : FileEntry,
        discover_executable rootStr rootCount children = some e.relPath ∧
        e ∈ walkFiles children ∧ e.relPath.length = 1 ∧
        isLauncherName e.name = true) ∧
    discover_executable "/opt/games" 2 exC2 = some ["run.sh"] := by
  constructor
  · intro rootStr rootCount children hex
    have hsome : ((walkFiles children).find? isTier1).isSome := by
      rw [List.find?_isSome]
      obtain ⟨e, he, hp⟩ := hex
      exact ⟨e, he, hp⟩
    obtain ⟨e, hfind⟩ := Option.isSome_iff_exists.mp hsome
    have hmem := List.mem_of_find?_eq_some hfind
    have hp0 := List.find?_some hfind
    have hp : (e.relPath.length == 1 && isLauncherName e.name) = true := hp0
    rw [Bool.and_eq_true] at hp
    refine ⟨e, ?_, hmem, by simpa using hp.1, hp.2⟩
    unfold discover_executable
    rw [hfind]
  · decide

/-- Witness for C2: the hypothesis holds on the claim's own example tree
and the theorem yields the Tier 1 result there. -/
theorem C2_tier1_short_circuit_witness :
    (∃ e ∈ walkFiles exC2, isTier1 e = true) ∧
    ∃ e : FileEntry,
      discover_executable "/opt/games" 2 exC2 = some e.relPath ∧
      e ∈ walkFiles exC2 ∧ e.relPath.length = 1 ∧
      isLauncherName e.name = true :=
  ⟨⟨⟨["run.sh"], "run.sh", some []⟩, by decide, by decide⟩,
   C2_tier1_short_circuit.1 "/opt/games" 2 exC2
     ⟨⟨["run.sh"], "run.sh", some []⟩, by decide, by decide⟩⟩

/-- C3: de-nesting returns the single inner subdirectory exactly when the
directory's immediate contents are one entry that is itself a directory;
zero entries, a single file, or two or more entries leave the directory
unchanged; and only one level is applied — even when the inner directory
itself wraps a single directory, the result is the first inner directory,
never the deeper one. -/
theorem C3_flatten_one_level :
    (∀ (dir : List String) (n : String) (cs : List FSTree),
        flatten_if_needed dir [FSTree.dir n cs] = dir ++ [n]) ∧
    (∀ dir : List String, flatten_if_needed dir [] = dir) ∧
    (∀ (dir : List String) (n : String) (c : Option Bytes),
        flatten_if_needed dir [FSTree.file n c] = dir) ∧
    (∀ (dir : List String) (children : List FSTree),
        2 ≤ children.length → flatten_if_needed dir children = dir) ∧
    (∀ (dir : List String) (n m : String) (inner : List FSTree),
        flatten_if_needed dir [FSTree.dir n [FSTree.dir m inner]] =
          dir ++ [n]) := by
  refine ⟨fun dir n cs => rfl, fun dir => rfl, fun dir n c => rfl, ?_,
    fun dir n m inner => rfl⟩
  intro dir children h
  cases children with
  | nil => simp at h
  | cons a t =>
    cases t with
    | nil => simp at h
    | cons b t2 => cases a <;> rfl

/-- Witness for C3: the hypothesis of the multi-entry conjunct holds on a
two-file directory and the theorem returns it unchanged. -/
theorem C3_flatten_one_level_witness :
    2 ≤ ([FSTree.file "a" none, FSTree.file "b" none] : List FSTree).length ∧
    flatten_if_needed ["d"] [FSTree.file "a" none, FSTree.file "b" none] =
      ["d"] :=
  ⟨by decide,
   C3_flatten_one_level.2.2.2.1 ["d"]
     [FSTree.file "a" none, FSTree.file "b" none] (by decide)⟩

/-- C6: the binary sniffer accepts exactly the readable files whose first
four bytes are the ELF magic 0x7F 0x45 0x4C 0x46; its verdict depends only
on the first four bytes (it reads at most 4); any read failure — an
unopenable file, or one shorter than four bytes — yields false rather than
an error; a 4-byte ELF-magic file is accepted while a 3-byte prefix, an
empty file and a PNG-magic file are rejected. -/
theorem C6_elf_sniffer :
    (∀ bytes : Bytes,
        is_elf_binary (some bytes) = true ↔ bytes.take 4 = ELF_MAGIC) ∧
    is_elf_binary none = false ∧
    (∀ b₁ b₂ : Bytes, b₁.take 4 = b₂.take 4 →
        is_elf_binary (some b₁) = is_elf_binary (some b₂)) ∧
    is_elf_binary (some [0x7F, 0x45, 0x4C, 0x46]) = true ∧
    is_elf_binary (some [0x7F, 0x45, 0x4C]) = false ∧
    is_elf_binary (some []) = false ∧
    is_elf_binary (some [0x89, 0x50, 0x4E, 0x47]) = false := by
  refine ⟨?_, rfl, ?_, by decide, by decide, by decide, by decide⟩
  · intro bytes
    by_cases h : bytes.length < 4
    · simp only [is_elf_binary, if_pos h]
      constructor
      · intro hf
        exact absurd hf (by simp)
      · intro ht
        have hl : (bytes.take 4).length = 4 := by rw [ht]; rfl
        rw [List.length_take] at hl
        omega
    · simp only [is_elf_binary, if_neg h]
      simp
  · intro b1 b2 heq
    have hlen : min 4 b1.length = min 4 b2.length := by
      have hc := congrArg List.length heq
      simpa [List.length_take] using hc
    by_cases h1 : b1.length < 4
    · have h2 : b2.length < 4 := by omega
      simp only [is_elf_binary, if_pos h1, if_pos h2]
    · have h2 : ¬ b2.length < 4 := by omega
      simp only [is_elf_binary, if_neg h1, if_neg h2, heq]

/-- Witness for C6: the first-four-bytes determinism applied to two
concrete files differing only past byte four. -/
theorem C6_elf_sniffer_witness :
    ([0x7F, 0x45, 0x4C, 0x46, 1] : Bytes).take 4 =
      ([0x7F, 0x45, 0x4C, 0x46, 2] : Bytes).take 4 ∧
    is_elf_binary (some [0x7F, 0x45, 0x4C, 0x46, 1]) =
      is_elf_binary (some [0x7F, 0x45, 0x4C, 0x46, 2]) :=
  ⟨by decide,
   C6_elf_sniffer.2.2.1 [0x7F, 0x45, 0x4C, 0x46, 1]
     [0x7F, 0x45, 0x4C, 0x46, 2] (by decide)⟩

/-- C7: icon discovery considers exactly the walked files whose lowercased
name ends in .png, .svg or .ico; it returns `none` (not an error) exactly
when that candidate list is empty; any returned path belongs to a
candidate whose key — (negated score, depth), with score 10 for a
lowercased name containing icon or logo, else 1 — is minimal, i.e. a
highest-scoring candidate with ties broken by shallowest depth; and on
`logo.png` next to `splash.png` at equal depth it returns `logo.png`. -/
theorem C7_icon_discovery :
    (∀ (children : List FSTree) (e : FileEntry),
        e ∈ iconCandidates children ↔
          e ∈ walkFiles children ∧ isIconCandidate e = true) ∧
    (∀ (rootCount : Nat) (children : List FSTree),
        discover_icon rootCount children = none ↔
          iconCandidates children = []) ∧
    (∀ (rootCount : Nat) (children : List FSTree) (p : List String),
        discover_icon rootCount children = some p →
        ∃ e : FileEntry, e ∈ iconCandidates children ∧ p = e.relPath ∧
          ∀ d ∈ iconCandidates children,
            intKeyLEProp (iconKey rootCount e) (iconKey rootCount d)) ∧
    discover_icon 1 exC7 = some ["logo.png"] := by
  refine ⟨fun children e => List.mem_filter, ?_, ?_, by decide⟩
  · intro rootCount children
    constructor
    · intro h
      unfold discover_icon at h
      cases hst : stableSort
          (fun a b => intPairLT (iconKey rootCount a) (iconKey rootCount b))
          (iconCandidates children) with
      | nil =>
        have hperm := perm_stableSort
          (fun a b => intPairLT (iconKey rootCount a) (iconKey rootCount b))
          (iconCandidates children)
        rw [hst] at hperm
        exact hperm.symm.eq_nil
      | cons a t =>
        rw [hst] at h
        simp at h
    · intro h
      unfold discover_icon
      rw [h]
      rfl
  · intro rootCount children p h
    unfold discover_icon at h
    set lt := fun a b : FileEntry =>
      intPairLT (iconKey rootCount a) (iconKey rootCount b) with hltdef
    have hperm := perm_stableSort lt (iconCandidates children)
    cases hst : stableSort lt (iconCandidates children) with
    | nil =>
      rw [hst] at h
      simp at h
    | cons e t =>
      rw [hst] at h
      simp only [List.head?_cons, Option.map_some', Option.some.injEq] at h
      have hmem : e ∈ iconCandidates children :=
        hperm.mem_iff.mp (hst ▸ List.mem_cons_self e t)
      have hpw := @pairwise_stableSort FileEntry lt
        (fun x y z hxy hyz =>
          intPairLT_mono (iconKey rootCount x) (iconKey rootCount y)
            (iconKey rootCount z) hxy hyz)
        (fun x y hxy =>
          intPairLT_asymm (iconKey rootCount x) (iconKey rootCount y) hxy)
        (iconCandidates children)
      have hmin := head_min_of_pairwise hpw (by rw [hst]; rfl)
      refine ⟨e, hmem, h.symm, ?_⟩
      intro d hd
      rcases hmin d (hperm.mem_iff.mpr hd) with rfl | hle
      · exact Or.inr ⟨rfl, Nat.le_refl _⟩
      · exact (intPairLT_false_iff _ _).mp hle

/-- Witness for C7: the minimality conclusion instantiated on the claim's
own example, whose hypothesis is the concrete discovery result. -/
theorem C7_icon_discovery_witness :
    discover_icon 1 exC7 = some ["logo.png"] ∧
    ∃ e : FileEntry, e ∈ iconCandidates exC7 ∧
      (["logo.png"] : List String) = e.relPath ∧
      ∀ d ∈ iconCandidates exC7, intKeyLEProp (iconKey 1 e) (iconKey 1 d) :=
  ⟨by decide, C7_icon_discovery.2.2.1 1 exC7 ["logo.png"] (by decide)⟩

/-- C8: in the multiple-match disambiguation of fuzzy resolution, an
operator line that is empty after trimming fails with Cancelled; a
non-numeric entry fails with the invalid-selection failure (message
`Invalid selection`); an entry of 0 or above the number of matches fails
with the invalid-selection failure carrying `Selection out of range`; a
valid 1-based index k returns the k-th match. -/
theorem C8_fuzzy_selection :
    (∀ (ms : List String) (line : String), trimChars line = "" →
        selectFromMatches ms line = Except.error FuzzyError.cancelled) ∧
    (∀ (ms : List String) (line : String), trimChars line ≠ "" →
        parseUsize (trimChars line) = none →
        selectFromMatches ms line =
          Except.error (FuzzyError.invalidSelection "Invalid selection")) ∧
    (∀ (ms : List String) (line : String) (k : Nat),
        parseUsize (trimChars line) = some k → (k = 0 ∨ ms.length < k) →
        selectFromMatches ms line =
          Except.error
            (FuzzyError.invalidSelection "Selection out of range")) ∧
    (∀ (ms : List String) (line : String) (k : Nat),
        parseUsize (trimChars line) = some k → 1 ≤ k → k ≤ ms.length →
        ∃ hk : k - 1 < ms.length,
          selectFromMatches ms line = Except.ok (ms.get ⟨k - 1, hk⟩)) := by
  have hempty : parseUsize "" = none := rfl
  refine ⟨?_, ?_, ?_, ?_⟩
  · intro ms line h
    unfold selectFromMatches
    rw [if_pos h]
  · intro ms line hne hp
    unfold selectFromMatches
    rw [if_neg hne, hp]
  · intro ms line k hp hor
    have hne : trimChars line ≠ "" := by
      intro h0
      rw [h0, hempty] at hp
      exact Option.noConfusion hp
    unfold selectFromMatches
    rw [if_neg hne, hp]
    show (if k = 0 ∨ ms.length < k then
        Except.error (FuzzyError.invalidSelection "Selection out of range")
      else Except.ok (ms.getD (k - 1) "")) =
      Except.error (FuzzyError.invalidSelection "Selection out of range")
    rw [if_pos hor]
  · intro ms line k hp h1 h2
    have hne : trimChars line ≠ "" := by
      intro h0
      rw [h0, hempty] at hp
      exact Option.noConfusion hp
    have hk : k - 1 < ms.length := by omega
    refine ⟨hk, ?_⟩
    unfold selectFromMatches
    rw [if_neg hne, hp]
    show (if k = 0 ∨ ms.length < k then
        Except.error (FuzzyError.invalidSelection "Selection out of range")
      else Except.ok (ms.getD (k - 1) "")) =
      Except.ok (ms.get ⟨k - 1, hk⟩)
    rw [if_neg (by omega)]
    have hget : ms.getD (k - 1) "" = ms.get ⟨k - 1, hk⟩ := by
      rw [List.getD_eq_getElem?_getD, List.getElem?_eq_getElem hk]
      simp [List.get_eq_getElem]
    rw [hget]

/-- Witness for C8: the four behaviours on a concrete two-element match
list with lines that are empty, non-numeric, out of range, and valid. -/
theorem C8_fuzzy_selection_witness :
    selectFromMatches ["alpha", "beta"] "\n" =
      Except.error FuzzyError.cancelled ∧
    selectFromMatches ["alpha", "beta"] "x\n" =
      Except.error (FuzzyError.invalidSelection "Invalid selection") ∧
    selectFromMatches ["alpha", "beta"] "3\n" =
      Except.error (FuzzyError.invalidSelection "Selection out of range") ∧
    ∃ hk : 2 - 1 < (["alpha", "beta"] : List String).length,
      selectFromMatches ["alpha", "beta"] "2\n" =
        Except.ok ((["alpha", "beta"] : List String).get ⟨2 - 1, hk⟩) :=
  ⟨C8_fuzzy_selection.1 ["alpha", "beta"] "\n" (by decide),
   C8_fuzzy_selection.2.1 ["alpha", "beta"] "x\n" (by decide) (by decide),
   C8_fuzzy_selection.2.2.1 ["alpha", "beta"] "3\n" 3 (by decide)
     (Or.inr (by decide)),
   C8_fuzzy_selection.2.2.2 ["alpha", "beta"] "2\n" 2 (by decide) (by decide)
     (by decide)⟩

/-- A stem that ends in `.tar` and is not the bare hidden name `.tar`
loses exactly its last four characters under `fileStem`. -/
theorem fileStem_of_tar_suffix (s : String)
    (h : endsWithStr s ".tar" = true) (hne : s ≠ ".tar") :
    fileStem s = String.mk (s.toList.take (s.toList.length - 4)) := by
  have hsuf : (['.', 't', 'a', 'r'] : List Char) <:+ s.toList := by
    rw [endsWithStr] at h
    exact List.isSuffixOf_iff_suffix.mp h
  obtain ⟨pre, hpre⟩ := hsuf
  have hprene : pre ≠ [] := by
    intro h0
    apply hne
    rw [← String.toList_inj]
    rw [h0] at hpre
    simp only [List.nil_append] at hpre
    rw [← hpre]
    rfl
  have hrev : s.toList.reverse = 'r' :: 'a' :: 't' :: '.' :: pre.reverse := by
    rw [← hpre, List.reverse_append]
    rfl
  have hlen : s.toList.length = pre.length + 4 := by
    rw [← hpre, List.length_append]
    rfl
  have hidx : s.toList.reverse.findIdx? (fun c => c == '.') = some 3 := by
    rw [hrev]
    simp
  unfold fileStem
  rw [hidx]
  show (if s.toList.length - 1 - 3 = 0 then s
      else String.mk (s.toList.take (s.toList.length - 1 - 3))) =
    String.mk (s.toList.take (s.toList.length - 4))
  have hi0 : s.toList.length - 1 - 3 ≠ 0 := by
    have := List.length_pos.mpr hprene
    omega
  rw [if_neg hi0]
  rw [show s.toList.length - 1 - 3 = s.toList.length - 4 from by omega]

/-- C4 counterexample: for the archive name `.tar.gz` the code keeps the
hidden-file stem `.tar` as the target directory name, while the claimed
derivation — strip the outermost extension, then strip the remaining
`.tar` — yields the empty name; the claim fails at this input. -/
theorem C4_counterexample :
    targetDirName ".tar.gz" = ".tar" ∧ specTargetDirName ".tar.gz" = "" ∧
    targetDirName ".tar.gz" ≠ specTargetDirName ".tar.gz" := by
  exact ⟨by decide, by decide, by decide⟩

/-- C4 (amended): the target directory name is the archive name's stem
with the stem rule applied once more when it still ends in `.tar`; for
every archive whose stem is not the bare hidden name `.tar` this agrees
with the claimed literal suffix-stripping, and the claim's examples hold:
`foo.tar.gz`, `foo.tar.xz` and `foo.zip` all yield `foo`. -/
theorem C4_target_dir_name :
    (∀ name : String, fileStem name ≠ ".tar" →
        targetDirName name = specTargetDirName name) ∧
    targetDirName "foo.tar.gz" = "foo" ∧
    targetDirName "foo.tar.xz" = "foo" ∧
    targetDirName "foo.zip" = "foo" := by
  refine ⟨?_, by decide, by decide, by decide⟩
  intro name hne
  unfold targetDirName specTargetDirName
  cases h : endsWithStr (fileStem name) ".tar" with
  | false => simp only [h, Bool.false_eq_true, if_false]
  | true =>
    simp only [h, if_true]
    exact fileStem_of_tar_suffix (fileStem name) h hne

/-- Witness for C4 (amended): the agreement applied to the claim's main
example `foo.tar.gz`. -/
theorem C4_target_dir_name_witness :
    fileStem "foo.tar.gz" ≠ ".tar" ∧
    targetDirName "foo.tar.gz" = specTargetDirName "foo.tar.gz" :=
  ⟨by decide, C4_target_dir_name.1 "foo.tar.gz" (by decide)⟩

/-- C5 counterexample: with no pre-existing target and an archive that
extracts to a single wrapper directory, a real run returns the de-nested
inner directory while a dry run returns the outer target directory — so a
dry run does not always return the path a real run would have produced. -/
theorem C5_counterexample :
    (extract_archive envC5 false).1 =
      Except.ok ["install", "foo", "wrapper"] ∧
    (extract_archive envC5 true).1 = Except.ok ["install", "foo"] ∧
    (extract_archive envC5 true).1 ≠ (extract_archive envC5 false).1 := by
  refine ⟨rfl, rfl, ?_⟩
  intro h
  rw [show (extract_archive envC5 true).1 = Except.ok ["install", "foo"]
      from rfl,
    show (extract_archive envC5 false).1 =
        Except.ok ["install", "foo", "wrapper"] from rfl] at h
  exact absurd (Except.ok.inj h) (by decide)

/-- C5 (amended): a dry run performs zero filesystem mutations in both the
archive extractor and the AppImage installer, and still returns an
installation path — the AppImage installer returns exactly the would-be
target directory, and the extractor returns the would-be target directory
(or the flattened existing directory when an overwrite is declined);
unlike the claim's wording, that path can differ from the real run's
result, because de-nesting of freshly extracted content is not simulated
(see the counterexample). -/
theorem C5_dry_run_no_mutation :
    (∀ env : ExtractEnv, (extract_archive env true).2 = []) ∧
    (∀ env : AppImageEnv, (install_appimage env true).2 = []) ∧
    (∀ env : ExtractEnv, env.archiveName ≠ "" →
        ∃ p : List String, (extract_archive env true).1 = Except.ok p) ∧
    (∀ env : AppImageEnv, env.fileName ≠ "" →
        (install_appimage env true).1 =
          Except.ok (env.installDir ++ [fileStem env.fileName])) := by
  refine ⟨?_, ?_, ?_, ?_⟩
  · intro env
    unfold extract_archive
    by_cases h0 : env.archiveName = ""
    · rw [if_pos h0]
    · rw [if_neg h0]
      by_cases h1 :
          (env.targetExists &&
            !(lowerStr (trimChars env.confirmLine) == "y")) = true
      · rw [if_pos h1]
      · rw [if_neg h1]
        simp
  · intro env
    unfold install_appimage
    by_cases h0 : env.fileName = ""
    · rw [if_pos h0]
    · rw [if_neg h0]
      by_cases h1 :
          (env.targetExists &&
            !(lowerStr (trimChars env.confirmLine) == "y")) = true
      · rw [if_pos h1]
      · rw [if_neg h1]
        simp
  · intro env h0
    unfold extract_archive
    rw [if_neg h0]
    by_cases h1 :
        (env.targetExists &&
          !(lowerStr (trimChars env.confirmLine) == "y")) = true
    · rw [if_pos h1]
      exact ⟨_, rfl⟩
    · rw [if_neg h1]
      exact ⟨_, rfl⟩
  · intro env h0
    unfold install_appimage
    rw [if_neg h0]
    by_cases h1 :
        (env.targetExists &&
          !(lowerStr (trimChars env.confirmLine) == "y")) = true
    · rw [if_pos h1]
    · rw [if_neg h1]
      rfl

/-- Witness for C5 (amended): zero mutations and returned paths on the
concrete environments. -/
theorem C5_dry_run_no_mutation_witness :
    envC5.archiveName ≠ "" ∧ aenvC5.fileName ≠ "" ∧
    (extract_archive envC5 true).2 = [] ∧
    (install_appimage aenvC5 true).2 = [] ∧
    (∃ p : List String, (extract_archive envC5 true).1 = Except.ok p) ∧
    (install_appimage aenvC5 true).1 =
      Except.ok (aenvC5.installDir ++ [fileStem aenvC5.fileName]) :=
  ⟨by decide, by decide,
   C5_dry_run_no_mutation.1 envC5,
   C5_dry_run_no_mutation.2.1 aenvC5,
   C5_dry_run_no_mutation.2.2.1 envC5 (by decide),
   C5_dry_run_no_mutation.2.2.2 aenvC5 (by decide)⟩

/-- If a string ends with a pattern, every character of the pattern occurs
in the string. -/
theorem contains_of_endsWith {s pat : String} {c : Char}
    (h : endsWithStr s pat = true) (hc : c ∈ pat.toList) :
    strContainsChar s c = true := by
  rw [endsWithStr] at h
  have hsuf := List.isSuffixOf_iff_suffix.mp h
  have hmem : c ∈ s.toList := hsuf.subset hc
  show s.toList.elem c = true
  exact List.elem_iff.mpr hmem

/-- C9 counterexample: the same tree under two root paths — the `/lib/`
exclusion inspects the full path string, so a root whose own path passes
through a `lib` segment suppresses a candidate that is collected under
any other root, and the discovery outcome changes with the root's own
path alone. -/
theorem C9_counterexample :
    isTier2 "/opt/games" ⟨["game"], "game", elfContent⟩ = true ∧
    isTier2 "/lib/games" ⟨["game"], "game", elfContent⟩ = false ∧
    discover_executable "/opt/games" 2 exC9 = some ["game"] ∧
    discover_executable "/lib/games" 2 exC9 = none := by
  exact ⟨by decide, by decide, by decide, by decide⟩

/-- C9 (amended): a walked file whose name has no dot is collected as a
Tier 2 candidate iff its full path string — which includes the search
root's own path — avoids the substrings `/lib/` and `/docs/` and the file
passes the binary sniffer; contrary to the claim's last clause, the
exclusion is not determined by the segments below the root alone (see the
counterexample). -/
theorem C9_no_extension_membership :
    ∀ (rootStr : String) (children : List FSTree) (e : FileEntry),
      strContainsChar e.name '.' = false →
      (e ∈ tier2Candidates rootStr children ↔
        e ∈ walkFiles children ∧
        containsStr (pathString rootStr e.relPath) "/lib/" = false ∧
        containsStr (pathString rootStr e.relPath) "/docs/" = false ∧
        is_elf_binary e.content = true) := by
  intro rootStr children e hdot
  have hx64 : endsWithStr e.name ".x86_64" = false := by
    cases hx : endsWithStr e.name ".x86_64" with
    | false => rfl
    | true =>
      have hcd := contains_of_endsWith (s := e.name) hx
        (show '.' ∈ ".x86_64".toList by decide)
      rw [hdot] at hcd
      exact absurd hcd (by decide)
  have hx86 : endsWithStr e.name ".x86" = false := by
    cases hx : endsWithStr e.name ".x86" with
    | false => rfl
    | true =>
      have hcd := contains_of_endsWith (s := e.name) hx
        (show '.' ∈ ".x86".toList by decide)
      rw [hdot] at hcd
      exact absurd hcd (by decide)
  have hcond : isTier2 rootStr e =
      ((!(containsStr (pathString rootStr e.relPath) "/lib/") &&
        !(containsStr (pathString rootStr e.relPath) "/docs/")) &&
       is_elf_binary e.content) := by
    unfold isTier2
    rw [hx64, hx86, hdot]
    simp
  rw [tier2Candidates, List.mem_filter, hcond]
  simp only [Bool.and_eq_true, Bool.not_eq_true']
  constructor
  · rintro ⟨hw, ⟨hl, hd⟩, helf⟩
    exact ⟨hw, hl, hd, helf⟩
  · rintro ⟨hw, hl, hd, helf⟩
    exact ⟨hw, ⟨hl, hd⟩, helf⟩

/-- Witness for C9 (amended): the membership characterization applied to
the extensionless candidate under the ordinary root path. -/
theorem C9_no_extension_membership_witness :
    strContainsChar "game" '.' = false ∧
    ((⟨["game"], "game", elfContent⟩ : FileEntry) ∈
        tier2Candidates "/opt/games" exC9 ↔
      (⟨["game"], "game", elfContent⟩ : FileEntry) ∈ walkFiles exC9 ∧
      containsStr (pathString "/opt/games" ["game"]) "/lib/" = false ∧
      containsStr (pathString "/opt/games" ["game"]) "/docs/" = false ∧
      is_elf_binary elfContent = true) :=
  ⟨by decide,
   C9_no_extension_membership "/opt/games" exC9
     ⟨["game"], "game", elfContent⟩ (by decide)⟩

/-- C10 counterexample: on a tree whose only file is `./Game.AppImage`,
the discovery.rs revision returns it as a Tier 1 match while the main.rs
revision — whose Tier 1 test omits `.AppImage` — finds no executable, so
the two duplicated revisions are not equivalent. -/
theorem C10_counterexample :
    discover_executable "/r" 1 exC10 = some ["Game.AppImage"] ∧
    discover_executable_main "/r" 1 exC10 = none := by
  exact ⟨by decide, by decide⟩

/-- C10 (amended): the two duplicated revisions agree on every tree in
which no walked file's name ends in `.AppImage`; they differ exactly in
the main.rs Tier 1 test omitting the `.AppImage` alternative, as the
counterexample shows. -/
theorem C10_agree_without_appimage :
    ∀ (rootStr : String) (rootCount : Nat) (children : List FSTree),
      (∀ e ∈ walkFiles children, endsWithStr e.name ".AppImage" = false) →
      discover_executable_main rootStr rootCount children =
        discover_executable rootStr rootCount children := by
  intro rootStr rootCount children h
  have hcong : (walkFiles children).find? isTier1Main =
      (walkFiles children).find? isTier1 := by
    apply findCongr
    intro e he
    have happ := h e he
    simp [isTier1Main, isTier1, isLauncherName, happ]
  unfold discover_executable discover_executable_main
  rw [hcong]

/-- Witness for C10 (amended): agreement on a concrete tree with a Tier 1
script and a deeper ELF but no AppImage. -/
theorem C10_agree_without_appimage_witness :
    (∀ e ∈ walkFiles exC10w, endsWithStr e.name ".AppImage" = false) ∧
    discover_executable_main "/opt/games" 2 exC10w =
      discover_executable "/opt/games" 2 exC10w ∧
    discover_executable "/opt/games" 2 exC10w = some ["start.sh"] :=
  ⟨by decide,
   C10_agree_without_appimage "/opt/games" 2 exC10w (by decide),
   by decide⟩

end Spawn
